import Mathlib

/-
Formal model of the monitoring scheduler and delivery pipeline of
src/main.py (a Twitter-to-Telegram forwarding bot).

Modelling conventions:
- Post (tweet) ids are decimal numerals in the source; they are modelled by
  their numeric value (Nat), since every comparison in the source goes
  through int(x["id"]) and ids only flow into the watermark field.
- The in-memory account store (config_manager.config["monitored_accounts"])
  is a List TwitterAccount; the durable config dict used by _load_config and
  save_config is modelled as a JSON association list.
- Network and messaging effects are modelled by oracles: an HttpResult value
  stands for the outcome of the GET in get_recent_tweets (a status code with
  a parsed body, or a raised transport exception), and a SendResult oracle
  stands for the outcome of telegram_bot.send_message for a given tweet id.
- Awaited delays and log lines are recorded in an effect trace.
-/

set_option autoImplicit false

/-- Python's str.lower(), restricted to ASCII as used for account handles.
(String.toLower itself is defined by well-founded recursion and does not
evaluate inside the kernel, so we map Char.toLower over the character list.) -/
def strLower (s : String) : String :=
  String.mk (s.data.map Char.toLower)

/-- Mirrors the TwitterAccount dataclass of main.py (watermark as Nat). -/
structure TwitterAccount where
  username : String
  user_id : String
  last_tweet_id : Option Nat := none
  deriving Repr, DecidableEq

/-- A tweet as used by the pipeline: id (numeric value), text, created_at. -/
structure Tweet where
  id : Nat
  text : String
  created_at : String
  deriving Repr, DecidableEq

/-- Observable effects of the pipeline: the GET in get_recent_tweets, awaited
sleeps, a successful telegram send of a tweet, and logged errors. -/
inductive Effect where
  | fetchCall
  | sleep (n : Nat)
  | send (username : String) (id : Nat)
  | logError (msg : String)
  deriving Repr, DecidableEq

/-- ConfigManager.add_account: refuses (returns false, store unchanged) when
some stored username equals the new one case-insensitively; otherwise appends
a record with a null watermark and returns true. -/
def add_account (store : List TwitterAccount) (username : String)
    (user_id : String) : Bool × List TwitterAccount :=
  if store.any (fun acc => strLower acc.username == strLower username) then
    (false, store)
  else
    (true, store ++ [{ username := username, user_id := user_id,
                       last_tweet_id := none }])

/-- ConfigManager.remove_account: filters out all case-insensitive matches and
reports whether the store shrank. -/
def remove_account (store : List TwitterAccount) (username : String) :
    Bool × List TwitterAccount :=
  let store' := store.filter (fun acc => strLower acc.username != strLower username)
  (store'.length < store.length, store')

/-- ConfigManager.get_accounts: returns the stored accounts in list order. -/
def get_accounts (store : List TwitterAccount) : List TwitterAccount :=
  store

/-- ConfigManager.update_last_tweet: sets last_tweet_id on the first account
whose username matches case-insensitively (the source breaks after the first
hit), leaving everything else unchanged. -/
def update_last_tweet : List TwitterAccount → String → Nat → List TwitterAccount
  | [], _, _ => []
  | acc :: rest, username, tid =>
    if strLower acc.username == strLower username then
      { acc with last_tweet_id := some tid } :: rest
    else
      acc :: update_last_tweet rest username tid

/-- First stored account matching a username case-insensitively (how the
per-round snapshot entry for that username is read off the store). -/
def findAccount (store : List TwitterAccount) (u : String) : Option TwitterAccount :=
  store.find? (fun acc => strLower acc.username == strLower u)

/-- Watermark currently stored for username u, if u is present. -/
def currentWm (store : List TwitterAccount) (u : String) : Option Nat :=
  (findAccount store u).bind (fun a => a.last_tweet_id)

/-- Outcome of one telegram_bot.send_message call: normal return or a raised
exception with its message. -/
inductive SendResult where
  | success
  | failure (msg : String)
  deriving Repr, DecidableEq

/-- Outcome of the GET in TwitterMonitor.get_recent_tweets: an HTTP response
(status code plus the parsed tweet list of the body) or a raised transport
exception. -/
inductive HttpResult where
  | response (status : Nat) (body : List Tweet)
  | exn (msg : String)
  deriving Repr, DecidableEq

/-- The raw session.get: a transport exception propagates as Except.error,
any received response is a normal value. -/
def httpGetE (r : HttpResult) : Except String (Nat × List Tweet) :=
  match r with
  | .response status body => Except.ok (status, body)
  | .exn msg => Except.error msg

/-- The raw telegram_bot.send_message: a raised exception is Except.error. -/
def sendMessageE (r : SendResult) : Except String Unit :=
  match r with
  | .success => Except.ok ()
  | .failure msg => Except.error msg

/-- TwitterMonitor.get_recent_tweets: status 200 returns the body's tweets;
429 logs a warning and sleeps 60 before returning []; any other status logs
and returns []; a transport exception is caught, logged, and returns []. -/
def get_recent_tweets (r : HttpResult) : List Tweet × List Effect :=
  match httpGetE r with
  | Except.ok (status, body) =>
    if status == 200 then (body, [Effect.fetchCall])
    else if status == 429 then ([], [Effect.fetchCall, Effect.sleep 60])
    else ([], [Effect.fetchCall,
               Effect.logError ("Failed to get tweets: " ++ toString status)])
  | Except.error e =>
    ([], [Effect.fetchCall, Effect.logError ("Error getting tweets: " ++ e)])

/-- send_tweet_to_telegram: formats and sends one tweet; the whole body is
wrapped in try/except, so a raised send exception is caught and logged and
the function always returns normally. -/
def send_tweet_to_telegram (r : SendResult) (username : String) (t : Tweet) :
    List Effect :=
  match sendMessageE r with
  | Except.ok _ => [Effect.send username t.id]
  | Except.error e => [Effect.logError ("Failed to send tweet: " ++ e)]

/-- Ordering used by tweets.sort(key=lambda x: int(x["id"])). -/
def idLe (a b : Tweet) : Prop := a.id ≤ b.id

instance : DecidableRel idLe := fun a b => inferInstanceAs (Decidable (a.id ≤ b.id))

instance : IsTotal Tweet idLe := ⟨fun a b => Nat.le_total a.id b.id⟩

instance : IsTrans Tweet idLe := ⟨fun _ _ _ => Nat.le_trans⟩

/-- The in-place tweets.sort(key=lambda x: int(x["id"])) (a stable sort
ascending by numeric id). -/
def sortTweets (ts : List Tweet) : List Tweet :=
  List.insertionSort idLe ts

/-- The for-loop of check_account: for each tweet in order, send it to
telegram (send_tweet_to_telegram catches its own failures), then advance the
watermark to this tweet's id via update_last_tweet, then sleep 1. -/
def deliverLoop (oracle : Nat → SendResult) (username : String) :
    List TwitterAccount → List Tweet → List TwitterAccount × List Effect
  | store, [] => (store, [])
  | store, t :: rest =>
    let sendTrace := send_tweet_to_telegram (oracle t.id) username t
    let store' := update_last_tweet store username t.id
    let r := deliverLoop oracle username store' rest
    (r.1, sendTrace ++ [Effect.sleep 1] ++ r.2)

/-- The try-block of check_account: fetch, and if any tweets came back, sort
them by numeric id and run the delivery loop. Returns Except to record that
an uncaught exception inside the block would surface here. -/
def checkAccountE (oracle : Nat → SendResult) (resp : HttpResult)
    (account : TwitterAccount) (store : List TwitterAccount) :
    Except String (List TwitterAccount × List Effect) :=
  let fetched := get_recent_tweets resp
  if fetched.1.isEmpty then
    Except.ok (store, fetched.2)
  else
    let sorted := sortTweets fetched.1
    let r := deliverLoop oracle account.username store sorted
    Except.ok (r.1, fetched.2 ++ r.2)

/-- check_account: the try-block above with its except clause, which logs and
returns normally, leaving the store as it was at the point of the raise. -/
def check_account (oracle : Nat → SendResult) (resp : HttpResult)
    (account : TwitterAccount) (store : List TwitterAccount) :
    List TwitterAccount × List Effect :=
  match checkAccountE oracle resp account store with
  | Except.ok r => r
  | Except.error e =>
    (store, [Effect.logError ("Error checking " ++ account.username ++ ": " ++ e)])

/-- Ids of the tweets actually sent to telegram, read off a trace in order. -/
def sendIds (trace : List Effect) : List Nat :=
  trace.filterMap (fun e => match e with
    | Effect.send _ i => some i
    | _ => none)

/-- The external world for one account in one round: the fetch outcome and
the telegram outcome per tweet id. -/
structure World where
  resp : HttpResult
  oracle : Nat → SendResult

/-- One monitoring round restricted to the account named u: re-read the
account from the store as monitoring_loop does via get_accounts, then run
check_account on it. -/
def accountRound (u : String) (w : World) (store : List TwitterAccount) :
    List TwitterAccount :=
  match findAccount (get_accounts store) u with
  | none => store
  | some acc => (check_account w.oracle w.resp acc store).1

/-- Effect trace of one round for the account named u. -/
def accountRoundTrace (u : String) (w : World) (store : List TwitterAccount) :
    List Effect :=
  match findAccount (get_accounts store) u with
  | none => []
  | some acc => (check_account w.oracle w.resp acc store).2

/-- Store evolution for the account named u over a sequence of rounds. -/
def runRounds (u : String) : List World → List TwitterAccount → List TwitterAccount
  | [], store => store
  | w :: ws, store => runRounds u ws (accountRound u w store)

/-- Effect trace for the account named u over a sequence of rounds; the
monitoring loop sleeps check_interval between rounds. -/
def roundsTrace (u : String) (interval : Nat) :
    List World → List TwitterAccount → List Effect
  | [], _ => []
  | w :: ws, store =>
    accountRoundTrace u w store ++ [Effect.sleep interval]
      ++ roundsTrace u interval ws (accountRound u w store)

/-- The tweets a round's fetch hands to the delivery loop. -/
def roundTweets (w : World) : List Tweet :=
  (get_recent_tweets w.resp).1

/-- Ids the delivery loop processes in a round, in processing order. -/
def deliveredIds (w : World) : List Nat :=
  (sortTweets (roundTweets w)).map (fun t => t.id)

/-- Watermark order: absent is below everything. -/
def wmLe : Option Nat → Option Nat → Prop
  | none, _ => True
  | some _, none => False
  | some a, some b => a ≤ b

instance instDecidableWmLe : (a b : Option Nat) → Decidable (wmLe a b)
  | none, _ => Decidable.isTrue trivial
  | some _, none => Decidable.isFalse (fun h => h)
  | some a, some b => inferInstanceAs (Decidable (a ≤ b))

/-- A post id strictly above the current watermark (any id when absent). -/
def wmLt : Option Nat → Nat → Prop
  | none, _ => True
  | some w, n => w < n

instance instDecidableWmLt : (a : Option Nat) → (n : Nat) → Decidable (wmLt a n)
  | none, _ => Decidable.isTrue trivial
  | some w, n => inferInstanceAs (Decidable (w < n))

/-- Rounds in which the feed honours the fetchSince contract for account u:
each successful fetch returns posts with pairwise-distinct ids, all strictly
above the watermark supplied (the one currently stored). -/
def ValidRounds (u : String) : List TwitterAccount → List World → Prop
  | _, [] => True
  | store, w :: ws =>
    ((roundTweets w).map (fun t => t.id)).Nodup ∧
    (∀ t ∈ roundTweets w, wmLt (currentWm store u) t.id) ∧
    ValidRounds u (accountRound u w store) ws

/-- Per round, the ids the pipeline processes are strictly increasing and all
strictly above the watermark stored at the start of that round. -/
def DeliveredOK (u : String) : List TwitterAccount → List World → Prop
  | _, [] => True
  | store, w :: ws =>
    List.Chain' (fun a b => a < b) (deliveredIds w) ∧
    (∀ i ∈ deliveredIds w, wmLt (currentWm store u) i) ∧
    DeliveredOK u (accountRound u w store) ws

/-- One monitoring round over a snapshot of accounts (monitoring_loop reads
get_accounts once, then runs check_account for each; tasks touch disjoint
store entries, so the concurrent gather is modelled as a sequential fold).
The world is keyed by the account's username. -/
def runRound (worlds : String → World) (accs : List TwitterAccount)
    (store : List TwitterAccount) : List TwitterAccount :=
  accs.foldl
    (fun s a =>
      (check_account (worlds a.username).oracle (worlds a.username).resp a s).1)
    store

/-- An operator command mutating the account store. -/
inductive Op where
  | add (username : String) (user_id : String)
  | remove (username : String)
  deriving Repr, DecidableEq

/-- Apply one add/remove command to the store. -/
def applyOp (store : List TwitterAccount) : Op → List TwitterAccount
  | .add u i => (add_account store u i).2
  | .remove u => (remove_account store u).2

/-- Apply a sequence of commands in order. -/
def applyOps : List Op → List TwitterAccount → List TwitterAccount
  | [], store => store
  | op :: rest, store => applyOps rest (applyOp store op)

/-- The accounts successfully inserted by a command sequence, in insertion
order (an add that returns false inserts nothing). -/
def addsLog : List Op → List TwitterAccount → List TwitterAccount
  | [], _ => []
  | Op.add u i :: rest, store =>
    match add_account store u i with
    | (true, store') =>
      { username := u, user_id := i, last_tweet_id := none } :: addsLog rest store'
    | (false, store') => addsLog rest store'
  | Op.remove u :: rest, store => addsLog rest (remove_account store u).2

/-- JSON values as produced by json.load (numbers restricted to integers,
which is all the config format uses). A dict is an association list in
insertion order. -/
inductive Json where
  | null
  | num (n : Int)
  | str (s : String)
  | arr (xs : List Json)
  | obj (kvs : List (String × Json))

/-- Dict lookup: the value of the first entry with this key, if any. -/
def jsonLookup (kvs : List (String × Json)) (k : String) : Option Json :=
  (kvs.find? (fun p => p.1 == k)).map (fun p => p.2)

/-- Python's dict merge as in the source's return statement: keys of the
defaults in their order, each overridden by the file's value when the file
has that key, followed by the file's remaining keys in their order. -/
def dictMerge (a b : List (String × Json)) : List (String × Json) :=
  a.map (fun p =>
    match jsonLookup b p.1 with
    | some v => (p.1, v)
    | none => p)
  ++ b.filter (fun p => (jsonLookup a p.1).isNone)

/-- The default_config dict of ConfigManager._load_config. -/
def default_config : List (String × Json) :=
  [("monitored_accounts", Json.arr []), ("check_interval", Json.num 60)]

/-- What the startup load finds: no config file, a file that open/json.load
raises on, or a successfully parsed JSON value. -/
inductive LoadSource where
  | missing
  | parseError (msg : String)
  | parsed (j : Json)

/-- ConfigManager._load_config: a missing file yields the defaults; a file
whose read or parse raises is caught, logged, and yields the defaults; a
parsed dict is merged over the defaults. A parsed non-dict makes the merge
raise a TypeError inside the same try, which is likewise caught, so it also
falls back to the defaults. -/
def load_config (src : LoadSource) : List (String × Json) :=
  match src with
  | .missing => default_config
  | .parseError _ => default_config
  | .parsed (Json.obj kvs) => dictMerge default_config kvs
  | .parsed _ => default_config

/-- Rendering of json.dumps(config, indent=2), abstracted to a one-line
deterministic rendering: the exact whitespace of the dump does not matter to
any claim, only that it is a function of the dict's contents and order. -/
def serializeJson : Json → String
  | .null => "null"
  | .num n => toString n
  | .str s => "\"" ++ s ++ "\""
  | .arr xs => "[" ++ String.intercalate ", "
      (xs.attach.map (fun x => serializeJson x.1)) ++ "]"
  | .obj kvs => "\x7b" ++ String.intercalate ", "
      (kvs.attach.map (fun p =>
        "\"" ++ p.1.1 ++ "\": " ++ serializeJson p.1.2)) ++ "\x7d"
decreasing_by
  · simp only [Json.arr.sizeOf_spec]
    have := List.sizeOf_lt_of_mem x.2
    omega
  · simp only [Json.obj.sizeOf_spec]
    have h1 := List.sizeOf_lt_of_mem p.2
    have h2 : sizeOf p.1.2 < sizeOf p.1 := by
      cases p.1
      simp
    omega

/-- Result of one ConfigManager.save_config call: the in-memory config after
the call, the durable file content after the call, and logged errors. -/
structure SaveResult where
  config : Json
  storage : Option String
  trace : List Effect

/-- ConfigManager.save_config: writes json.dumps(self.config, indent=2) to
the config file; a write error is caught and logged, leaving the previous
durable content; the in-memory config is never touched. -/
def save_config (writeOk : Bool) (config : Json) (storage : Option String) :
    SaveResult :=
  if writeOk then
    { config := config, storage := some (serializeJson config), trace := [] }
  else
    { config := config, storage := storage,
      trace := [Effect.logError "Error saving config"] }

-- ===== theorems =====

example : (add_account [] "Alice" "1").1 = true := by decide
example : (add_account [⟨"Alice", "1", none⟩] "ALICE" "2").1 = false := by decide
example : (remove_account [⟨"Alice", "1", none⟩] "alice").2 = [] := by decide
example : currentWm (update_last_tweet [⟨"Alice", "1", none⟩] "alice" 7) "ALICE"
    = some 7 := by decide

example :
    sendIds ((check_account (fun n => if n == 5 then SendResult.failure "boom"
        else SendResult.success)
      (HttpResult.response 200 [⟨5, "a", "c"⟩, ⟨3, "b", "c"⟩, ⟨9, "d", "c"⟩])
      ⟨"alice", "100", some 2⟩ [⟨"alice", "100", some 2⟩]).2) = [3, 9] := by decide

example :
    currentWm ((check_account (fun n => if n == 5 then SendResult.failure "boom"
        else SendResult.success)
      (HttpResult.response 200 [⟨5, "a", "c"⟩, ⟨3, "b", "c"⟩, ⟨9, "d", "c"⟩])
      ⟨"alice", "100", some 2⟩ [⟨"alice", "100", some 2⟩]).1) "alice" = some 9 := by
  decide

theorem findAccount_cons (a : TwitterAccount) (rest : List TwitterAccount)
    (u : String) :
    findAccount (a :: rest) u =
      if strLower a.username == strLower u then some a else findAccount rest u := by
  by_cases h : (strLower a.username == strLower u) = true
  · simp [findAccount, List.find?_cons_of_pos, h]
  · simp [findAccount, List.find?_cons_of_neg, h]

theorem findAccount_isSome_update (store : List TwitterAccount) (v u : String)
    (tid : Nat) :
    (findAccount (update_last_tweet store v tid) u).isSome
      = (findAccount store u).isSome := by
  induction store with
  | nil => rfl
  | cons a rest ih =>
    by_cases hv : (strLower a.username == strLower v) = true
    · by_cases hu : (strLower a.username == strLower u) = true
      · simp [update_last_tweet, hv, findAccount_cons, hu]
      · simp [update_last_tweet, hv, findAccount_cons, hu]
    · by_cases hu : (strLower a.username == strLower u) = true
      · simp [update_last_tweet, hv, findAccount_cons, hu]
      · simp [update_last_tweet, hv, findAccount_cons, hu, ih]

theorem currentWm_update_self (store : List TwitterAccount) (v u : String)
    (tid : Nat) (hvu : strLower v = strLower u)
    (hpres : (findAccount store u).isSome = true) :
    currentWm (update_last_tweet store v tid) u = some tid := by
  induction store with
  | nil => simp [findAccount] at hpres
  | cons a rest ih =>
    by_cases hu : (strLower a.username == strLower u) = true
    · have hv : (strLower a.username == strLower v) = true := by
        rw [beq_iff_eq] at hu ⊢
        rw [hu, hvu]
      simp [update_last_tweet, hv, currentWm, findAccount_cons, hu]
    · have hv : ¬ (strLower a.username == strLower v) = true := by
        rw [beq_iff_eq] at hu ⊢
        rw [hvu]
        exact hu
      have hpres' : (findAccount rest u).isSome = true := by
        simpa [findAccount_cons, hu] using hpres
      have := ih hpres'
      simpa [update_last_tweet, hv, currentWm, findAccount_cons, hu] using this

theorem currentWm_update_other (store : List TwitterAccount) (v w : String)
    (tid : Nat) (hvw : strLower v ≠ strLower w) :
    currentWm (update_last_tweet store v tid) w = currentWm store w := by
  induction store with
  | nil => rfl
  | cons a rest ih =>
    by_cases hv : (strLower a.username == strLower v) = true
    · have hw : ¬ (strLower a.username == strLower w) = true := by
        rw [beq_iff_eq] at hv ⊢
        rw [hv]
        exact hvw
      simp [update_last_tweet, hv, currentWm, findAccount_cons, hw]
    · by_cases hw : (strLower a.username == strLower w) = true
      · simp [update_last_tweet, hv, currentWm, findAccount_cons, hw]
      · have := ih
        simpa [update_last_tweet, hv, currentWm, findAccount_cons, hw] using this

theorem findAccount_some_matches (store : List TwitterAccount) (u : String)
    (acc : TwitterAccount) (h : findAccount store u = some acc) :
    strLower acc.username = strLower u := by
  have := List.find?_some h
  rwa [beq_iff_eq] at this

theorem deliverLoop_fst_oracle (o₁ o₂ : Nat → SendResult) (v : String) :
    ∀ (ts : List Tweet) (store : List TwitterAccount),
      (deliverLoop o₁ v store ts).1 = (deliverLoop o₂ v store ts).1 := by
  intro ts
  induction ts with
  | nil => intro store; rfl
  | cons t rest ih =>
    intro store
    simp only [deliverLoop]
    exact ih _

theorem deliverLoop_find_isSome (o : Nat → SendResult) (v u : String) :
    ∀ (ts : List Tweet) (store : List TwitterAccount),
      (findAccount ((deliverLoop o v store ts).1) u).isSome
        = (findAccount store u).isSome := by
  intro ts
  induction ts with
  | nil => intro store; rfl
  | cons t rest ih =>
    intro store
    simp only [deliverLoop]
    rw [ih, findAccount_isSome_update]

theorem deliverLoop_wm (o : Nat → SendResult) (v u : String)
    (hvu : strLower v = strLower u) :
    ∀ (ts : List Tweet) (store : List TwitterAccount) (t : Tweet),
      (findAccount store u).isSome = true → ts.getLast? = some t →
      currentWm ((deliverLoop o v store ts).1) u = some t.id := by
  intro ts
  induction ts with
  | nil => intro store t _ hlast; simp at hlast
  | cons t1 rest ih =>
    intro store t hpres hlast
    match rest, ih with
    | [], _ =>
      have ht : t1 = t := by simpa using hlast
      simp only [deliverLoop]
      rw [← ht]
      exact currentWm_update_self store v u t1.id hvu hpres
    | t2 :: rest', ih =>
      have hlast' : (t2 :: rest').getLast? = some t := by
        rwa [List.getLast?_cons_cons] at hlast
      have hpres' :
          (findAccount (update_last_tweet store v t1.id) u).isSome = true := by
        rw [findAccount_isSome_update]
        exact hpres
      simp only [deliverLoop]
      exact ih _ t hpres' hlast'

theorem deliverLoop_sendIds (o : Nat → SendResult)
    (hok : ∀ n, o n = SendResult.success) (v : String) :
    ∀ (ts : List Tweet) (store : List TwitterAccount),
      sendIds ((deliverLoop o v store ts).2) = ts.map (fun t => t.id) := by
  intro ts
  induction ts with
  | nil => intro store; rfl
  | cons t rest ih =>
    intro store
    simp only [deliverLoop, sendIds, List.filterMap_append, (hok t.id),
      send_tweet_to_telegram, sendMessageE]
    simp only [sendIds] at ih
    simp [ih]

theorem check_account_eq (o : Nat → SendResult) (resp : HttpResult)
    (acc : TwitterAccount) (store : List TwitterAccount) :
    check_account o resp acc store =
      if (get_recent_tweets resp).1.isEmpty then
        (store, (get_recent_tweets resp).2)
      else
        ((deliverLoop o acc.username store (sortTweets (get_recent_tweets resp).1)).1,
         (get_recent_tweets resp).2
           ++ (deliverLoop o acc.username store (sortTweets (get_recent_tweets resp).1)).2) := by
  by_cases h : (get_recent_tweets resp).1.isEmpty
  · simp [check_account, checkAccountE, h]
  · simp [check_account, checkAccountE, h]

theorem sortTweets_perm (ts : List Tweet) : (sortTweets ts).Perm ts :=
  List.perm_insertionSort idLe ts

theorem sortTweets_sorted (ts : List Tweet) : List.Sorted idLe (sortTweets ts) :=
  List.sorted_insertionSort idLe ts

theorem wmLe_refl (a : Option Nat) : wmLe a a := by
  cases a <;> simp [wmLe]

theorem wmLe_trans (a b c : Option Nat) (h1 : wmLe a b) (h2 : wmLe b c) :
    wmLe a c := by
  cases a <;> cases b <;> cases c <;> first
    | trivial
    | (simp [wmLe] at *; omega)

theorem wmLt_wmLe (a : Option Nat) (n : Nat) (h : wmLt a n) : wmLe a (some n) := by
  cases a <;> first
    | trivial
    | (simp [wmLt, wmLe] at *; omega)

theorem getLast?_mem_of_eq {α : Type} (l : List α) (a : α)
    (h : l.getLast? = some a) : a ∈ l := by
  obtain ⟨hne, heq⟩ := List.mem_getLast?_eq_getLast (by rw [h]; rfl : a ∈ l.getLast?)
  rw [heq]
  exact List.getLast_mem hne

theorem deliveredIds_chain (w : World)
    (hnd : ((roundTweets w).map (fun t => t.id)).Nodup) :
    List.Chain' (fun a b => a < b) (deliveredIds w) := by
  have hsorted := sortTweets_sorted (roundTweets w)
  have hperm := sortTweets_perm (roundTweets w)
  have hle : (deliveredIds w).Pairwise (fun a b => a ≤ b) := by
    rw [deliveredIds, List.pairwise_map]
    exact hsorted
  have hnd' : (deliveredIds w).Nodup := by
    rw [deliveredIds]
    exact ((hperm.map (fun t => t.id)).nodup_iff).mpr hnd
  have hlt : (deliveredIds w).Pairwise (fun a b => a < b) :=
    (hle.and hnd').imp (fun h => lt_of_le_of_ne h.1 h.2)
  exact hlt.chain'

theorem deliveredIds_mem (w : World) (i : Nat) (hi : i ∈ deliveredIds w) :
    ∃ t ∈ roundTweets w, t.id = i := by
  rw [deliveredIds] at hi
  obtain ⟨t, ht, hti⟩ := List.mem_map.mp hi
  exact ⟨t, (sortTweets_perm _).subset ht, hti⟩

theorem accountRound_step (u : String) (store : List TwitterAccount) (w : World)
    (hpres : (findAccount store u).isSome = true)
    (hgt : ∀ t ∈ roundTweets w, wmLt (currentWm store u) t.id) :
    (findAccount (accountRound u w store) u).isSome = true ∧
    wmLe (currentWm store u) (currentWm (accountRound u w store) u) := by
  obtain ⟨acc, hacc⟩ : ∃ acc, findAccount store u = some acc := by
    cases h : findAccount store u
    · rw [h] at hpres; simp at hpres
    · exact ⟨_, rfl⟩
  have haccr : accountRound u w store = (check_account w.oracle w.resp acc store).1 := by
    simp [accountRound, get_accounts, hacc]
  by_cases hemp : (get_recent_tweets w.resp).1.isEmpty
  · have hid : (check_account w.oracle w.resp acc store).1 = store := by
      rw [check_account_eq]
      simp [hemp]
    rw [haccr, hid]
    exact ⟨hpres, wmLe_refl _⟩
  · have hne : roundTweets w ≠ [] := by
      simpa [roundTweets, List.isEmpty_iff] using hemp
    have hfst : (check_account w.oracle w.resp acc store).1
        = (deliverLoop w.oracle acc.username store (sortTweets (roundTweets w))).1 := by
      rw [check_account_eq]
      simp only [hemp, if_false, Bool.false_eq_true]
      rfl
    have hsne : sortTweets (roundTweets w) ≠ [] := by
      intro hcon
      have hlen := (sortTweets_perm (roundTweets w)).length_eq
      rw [hcon] at hlen
      exact hne (List.eq_nil_of_length_eq_zero hlen.symm)
    obtain ⟨tl, hlast⟩ : ∃ tl, (sortTweets (roundTweets w)).getLast? = some tl :=
      ⟨_, List.getLast?_eq_getLast _ hsne⟩
    have hmatch := findAccount_some_matches store u acc hacc
    have hwm := deliverLoop_wm w.oracle acc.username u hmatch
      (sortTweets (roundTweets w)) store tl hpres hlast
    constructor
    · rw [haccr, hfst, deliverLoop_find_isSome]
      exact hpres
    · rw [haccr, hfst, hwm]
      have htl : tl ∈ roundTweets w :=
        (sortTweets_perm _).subset (getLast?_mem_of_eq _ _ hlast)
      exact wmLt_wmLe _ _ (hgt tl htl)

/-- C3: across any sequence of rounds in which the feed returns only posts
with (distinct) ids strictly greater than the supplied watermark, the stored
watermark for an account never decreases, and per round the processed posts
form a strictly increasing id sequence lying strictly above the watermark
stored at the start of that round. -/
theorem watermark_nondecreasing (u : String) (store : List TwitterAccount)
    (ws : List World)
    (hpres : (findAccount store u).isSome = true)
    (hv : ValidRounds u store ws) :
    wmLe (currentWm store u) (currentWm (runRounds u ws store) u)
      ∧ DeliveredOK u store ws := by
  induction ws generalizing store with
  | nil =>
    simp only [runRounds, DeliveredOK]
    exact ⟨wmLe_refl _, trivial⟩
  | cons w ws ih =>
    simp only [ValidRounds] at hv
    obtain ⟨hnd, hgt, hv'⟩ := hv
    obtain ⟨hpres', hle1⟩ := accountRound_step u store w hpres hgt
    obtain ⟨hle2, hdok⟩ := ih (accountRound u w store) hpres' hv'
    refine ⟨?_, ?_⟩
    · simp only [runRounds]
      exact wmLe_trans _ _ _ hle1 hle2
    · simp only [DeliveredOK]
      refine ⟨deliveredIds_chain w hnd, ?_, hdok⟩
      intro i hi
      obtain ⟨t, ht, hti⟩ := deliveredIds_mem w i hi
      rw [← hti]
      exact hgt t ht

/-- C3 witness: a concrete two-round run for alice starting at watermark 2,
fetching ids 3 and 5 then id 9; the final watermark 9 is above 2. -/
theorem watermark_nondecreasing_witness :
    wmLe (currentWm [⟨"alice", "100", some 2⟩] "alice")
      (currentWm (runRounds "alice"
        [⟨HttpResult.response 200 [⟨3, "a", "c"⟩, ⟨5, "b", "c"⟩],
          fun _ => SendResult.success⟩,
         ⟨HttpResult.response 200 [⟨9, "d", "c"⟩], fun _ => SendResult.success⟩]
        [⟨"alice", "100", some 2⟩]) "alice") :=
  (watermark_nondecreasing "alice" [⟨"alice", "100", some 2⟩]
    [⟨HttpResult.response 200 [⟨3, "a", "c"⟩, ⟨5, "b", "c"⟩],
      fun _ => SendResult.success⟩,
     ⟨HttpResult.response 200 [⟨9, "d", "c"⟩], fun _ => SendResult.success⟩]
    (by decide)
    (by refine ⟨by decide, by decide, by decide, by decide, trivial⟩)).1

/-- C1 counterexample: fetched ids [5,3,9] at watermark 2; delivering id 3
succeeds, delivering id 5 raises inside send_tweet_to_telegram (visible as
the logged failure in the trace), id 9 succeeds — yet the watermark after the
round is 9, not 3, because check_account advances it for every processed
post no matter what send_tweet_to_telegram did. -/
theorem watermark_failed_delivery_counterexample :
    (check_account
        (fun n => if n == 5 then SendResult.failure "telegram 500"
                  else SendResult.success)
        (HttpResult.response 200 [⟨5, "t5", "c"⟩, ⟨3, "t3", "c"⟩, ⟨9, "t9", "c"⟩])
        ⟨"alice", "100", some 2⟩ [⟨"alice", "100", some 2⟩]).2
      = [Effect.fetchCall, Effect.send "alice" 3, Effect.sleep 1,
         Effect.logError "Failed to send tweet: telegram 500", Effect.sleep 1,
         Effect.send "alice" 9, Effect.sleep 1]
    ∧ currentWm ((check_account
        (fun n => if n == 5 then SendResult.failure "telegram 500"
                  else SendResult.success)
        (HttpResult.response 200 [⟨5, "t5", "c"⟩, ⟨3, "t3", "c"⟩, ⟨9, "t9", "c"⟩])
        ⟨"alice", "100", some 2⟩ [⟨"alice", "100", some 2⟩]).1) "alice"
      = some 9
    ∧ ¬ currentWm ((check_account
        (fun n => if n == 5 then SendResult.failure "telegram 500"
                  else SendResult.success)
        (HttpResult.response 200 [⟨5, "t5", "c"⟩, ⟨3, "t3", "c"⟩, ⟨9, "t9", "c"⟩])
        ⟨"alice", "100", some 2⟩ [⟨"alice", "100", some 2⟩]).1) "alice"
      = some 3 := by
  refine ⟨by decide, by decide, by decide⟩

/-- C1 amended: the watermark does not wait for confirmed delivery — the
resulting store is the same for every delivery oracle (send_tweet_to_telegram
catches every send failure, and check_account advances the watermark
unconditionally afterwards), and after a successful fetch of a nonempty list
the watermark is the id of the last post in sorted order, delivered or not;
failed posts are therefore not retried next round. -/
theorem watermark_advances_regardless_of_delivery
    (o o' : Nat → SendResult) (ts : List Tweet) (hne : ts ≠ [])
    (u : String) (acc : TwitterAccount) (store : List TwitterAccount)
    (hacc : findAccount store u = some acc) :
    (check_account o (HttpResult.response 200 ts) acc store).1
      = (check_account o' (HttpResult.response 200 ts) acc store).1
    ∧ ∃ t, (sortTweets ts).getLast? = some t ∧
        currentWm ((check_account o (HttpResult.response 200 ts) acc store).1) u
          = some t.id := by
  have hts : (get_recent_tweets (HttpResult.response 200 ts)).1 = ts := rfl
  have hemp : ¬ (get_recent_tweets (HttpResult.response 200 ts)).1.isEmpty := by
    rw [hts]
    simpa [List.isEmpty_iff] using hne
  have hfst : ∀ oo : Nat → SendResult,
      (check_account oo (HttpResult.response 200 ts) acc store).1
        = (deliverLoop oo acc.username store (sortTweets ts)).1 := by
    intro oo
    rw [check_account_eq]
    simp only [hemp, if_false, Bool.false_eq_true]
    rfl
  have hsne : sortTweets ts ≠ [] := by
    intro hcon
    have hlen := (sortTweets_perm ts).length_eq
    rw [hcon] at hlen
    exact hne (List.eq_nil_of_length_eq_zero hlen.symm)
  obtain ⟨tl, hlast⟩ : ∃ tl, (sortTweets ts).getLast? = some tl :=
    ⟨_, List.getLast?_eq_getLast _ hsne⟩
  have hpres : (findAccount store u).isSome = true := by rw [hacc]; rfl
  refine ⟨?_, tl, hlast, ?_⟩
  · rw [hfst o, hfst o']
    exact deliverLoop_fst_oracle o o' acc.username (sortTweets ts) store
  · rw [hfst o]
    exact deliverLoop_wm o acc.username u
      (findAccount_some_matches store u acc hacc) (sortTweets ts) store tl hpres hlast

/-- C1 amended witness: the concrete scenario of the counterexample — fetch
[5,3,9] at watermark 2 with delivery of id 5 failing — ends the round at
watermark 9. -/
theorem watermark_advances_regardless_of_delivery_witness :
    (check_account
        (fun n => if n == 5 then SendResult.failure "telegram 500"
                  else SendResult.success)
        (HttpResult.response 200 [⟨5, "t5", "c"⟩, ⟨3, "t3", "c"⟩, ⟨9, "t9", "c"⟩])
        ⟨"alice", "100", some 2⟩ [⟨"alice", "100", some 2⟩]).1
      = (check_account (fun _ => SendResult.success)
        (HttpResult.response 200 [⟨5, "t5", "c"⟩, ⟨3, "t3", "c"⟩, ⟨9, "t9", "c"⟩])
        ⟨"alice", "100", some 2⟩ [⟨"alice", "100", some 2⟩]).1 :=
  (watermark_advances_regardless_of_delivery
    (fun n => if n == 5 then SendResult.failure "telegram 500"
              else SendResult.success)
    (fun _ => SendResult.success)
    [⟨5, "t5", "c"⟩, ⟨3, "t3", "c"⟩, ⟨9, "t9", "c"⟩] (by decide)
    "alice" ⟨"alice", "100", some 2⟩ [⟨"alice", "100", some 2⟩] (by decide)).1

theorem deliverLoop_fst_foldl (o : Nat → SendResult) (v : String) :
    ∀ (ts : List Tweet) (store : List TwitterAccount),
      (deliverLoop o v store ts).1
        = ts.foldl (fun s t => update_last_tweet s v t.id) store := by
  intro ts
  induction ts with
  | nil => intro store; rfl
  | cons t rest ih =>
    intro store
    simp only [deliverLoop, List.foldl_cons]
    exact ih _

/-- C2: with a fetch returning a nonempty tweet list and every delivery
succeeding, check_account sends exactly the fetched tweets in ascending
numeric id order (a sorted permutation of the fetched list), advancing the
watermark once per post in that order (the resulting store is the fold of
per-post update_last_tweet calls over the sorted list), and the watermark
ends at the id of the last delivered post. -/
theorem delivery_sorted_order
    (oracle : Nat → SendResult) (hok : ∀ n, oracle n = SendResult.success)
    (ts : List Tweet) (hne : ts ≠ [])
    (u : String) (acc : TwitterAccount) (store : List TwitterAccount)
    (hacc : findAccount store u = some acc) :
    sendIds ((check_account oracle (HttpResult.response 200 ts) acc store).2)
      = (sortTweets ts).map (fun t => t.id)
    ∧ List.Sorted (fun a b : Nat => a ≤ b) ((sortTweets ts).map (fun t => t.id))
    ∧ (sortTweets ts).Perm ts
    ∧ (check_account oracle (HttpResult.response 200 ts) acc store).1
        = (sortTweets ts).foldl (fun s t => update_last_tweet s acc.username t.id) store
    ∧ ∃ t, (sortTweets ts).getLast? = some t ∧
        currentWm ((check_account oracle (HttpResult.response 200 ts) acc store).1) u
          = some t.id := by
  have hts : (get_recent_tweets (HttpResult.response 200 ts)).1 = ts := rfl
  have hemp : ¬ (get_recent_tweets (HttpResult.response 200 ts)).1.isEmpty := by
    rw [hts]
    simpa [List.isEmpty_iff] using hne
  have hfst : (check_account oracle (HttpResult.response 200 ts) acc store).1
      = (deliverLoop oracle acc.username store (sortTweets ts)).1 := by
    rw [check_account_eq]
    simp only [hemp, if_false, Bool.false_eq_true]
    rfl
  have hsnd : (check_account oracle (HttpResult.response 200 ts) acc store).2
      = [Effect.fetchCall] ++ (deliverLoop oracle acc.username store (sortTweets ts)).2 := by
    rw [check_account_eq]
    simp only [hemp, if_false, Bool.false_eq_true]
    rfl
  have hsne : sortTweets ts ≠ [] := by
    intro hcon
    have hlen := (sortTweets_perm ts).length_eq
    rw [hcon] at hlen
    exact hne (List.eq_nil_of_length_eq_zero hlen.symm)
  obtain ⟨tl, hlast⟩ : ∃ tl, (sortTweets ts).getLast? = some tl :=
    ⟨_, List.getLast?_eq_getLast _ hsne⟩
  have hpres : (findAccount store u).isSome = true := by rw [hacc]; rfl
  refine ⟨?_, ?_, sortTweets_perm ts, ?_, tl, hlast, ?_⟩
  · rw [hsnd]
    simp only [sendIds, List.filterMap_append]
    have hdel := deliverLoop_sendIds oracle hok acc.username (sortTweets ts) store
    simp only [sendIds] at hdel
    simp [hdel]
  · exact (List.pairwise_map).mpr (sortTweets_sorted ts)
  · rw [hfst]
    exact deliverLoop_fst_foldl oracle acc.username (sortTweets ts) store
  · rw [hfst]
    exact deliverLoop_wm oracle acc.username u
      (findAccount_some_matches store u acc hacc) (sortTweets ts) store tl hpres hlast

/-- C2 witness: fetched ids [5,3,9] at prior watermark 2 with all deliveries
succeeding are sent in order 3,5,9 and the final watermark is 9. -/
theorem delivery_sorted_order_witness :
    sendIds ((check_account (fun _ => SendResult.success)
        (HttpResult.response 200 [⟨5, "t5", "c"⟩, ⟨3, "t3", "c"⟩, ⟨9, "t9", "c"⟩])
        ⟨"alice", "100", some 2⟩ [⟨"alice", "100", some 2⟩]).2) = [3, 5, 9]
    ∧ currentWm ((check_account (fun _ => SendResult.success)
        (HttpResult.response 200 [⟨5, "t5", "c"⟩, ⟨3, "t3", "c"⟩, ⟨9, "t9", "c"⟩])
        ⟨"alice", "100", some 2⟩ [⟨"alice", "100", some 2⟩]).1) "alice" = some 9 := by
  have h := delivery_sorted_order (fun _ => SendResult.success) (fun _ => rfl)
    [⟨5, "t5", "c"⟩, ⟨3, "t3", "c"⟩, ⟨9, "t9", "c"⟩] (by decide)
    "alice" ⟨"alice", "100", some 2⟩ [⟨"alice", "100", some 2⟩] (by decide)
  refine ⟨?_, ?_⟩
  · rw [h.1]
    decide
  · obtain ⟨t, hlast, hwm⟩ := h.2.2.2.2
    have ht : t = (⟨9, "t9", "c"⟩ : Tweet) := by
      have : (sortTweets [⟨5, "t5", "c"⟩, ⟨3, "t3", "c"⟩, ⟨9, "t9", "c"⟩]).getLast?
          = some (⟨9, "t9", "c"⟩ : Tweet) := by decide
      rw [this] at hlast
      exact (Option.some.injEq _ _).mp hlast.symm
    rw [hwm, ht]

theorem applyOps_invariant : ∀ (ops : List Op) (store : List TwitterAccount),
    ((store.map (fun a => strLower a.username)).Nodup) →
    ((applyOps ops store).map (fun a => strLower a.username)).Nodup
      ∧ (applyOps ops store).Sublist (store ++ addsLog ops store) := by
  intro ops
  induction ops with
  | nil =>
    intro store h
    simp only [applyOps, addsLog, List.append_nil]
    exact ⟨h, List.Sublist.refl store⟩
  | cons op rest ih =>
    intro store h
    cases op with
    | add u i =>
      by_cases hc : store.any (fun acc => strLower acc.username == strLower u) = true
      · have hadd : add_account store u i = (false, store) := by
          simp [add_account, hc]
        simp only [applyOps, applyOp, addsLog, hadd]
        exact ih store h
      · have hadd : add_account store u i
            = (true, store ++ [{ username := u, user_id := i, last_tweet_id := none }]) := by
          simp [add_account, hc]
        have hnotin : ∀ acc ∈ store, ¬ strLower acc.username = strLower u := by
          intro acc hacc he
          exact hc (List.any_eq_true.mpr ⟨acc, hacc, by rwa [beq_iff_eq]⟩)
        have hn : ((store ++ [({ username := u, user_id := i, last_tweet_id := none } : TwitterAccount)]).map
            (fun a => strLower a.username)).Nodup := by
          rw [List.map_append]
          refine List.Nodup.append h (by simp) ?_
          intro x hx hx2
          simp only [List.map_cons, List.map_nil, List.mem_singleton] at hx2
          obtain ⟨acc, hacc, hae⟩ := List.mem_map.mp hx
          exact hnotin acc hacc (by rw [hae, hx2])
        simp only [applyOps, applyOp, addsLog, hadd]
        have hrec := ih (store ++ [({ username := u, user_id := i, last_tweet_id := none } : TwitterAccount)]) hn
        refine ⟨hrec.1, ?_⟩
        have hshape : store ++ (({ username := u, user_id := i, last_tweet_id := none } : TwitterAccount)
              :: addsLog rest (store ++ [({ username := u, user_id := i, last_tweet_id := none } : TwitterAccount)]))
            = (store ++ [({ username := u, user_id := i, last_tweet_id := none } : TwitterAccount)])
              ++ addsLog rest (store ++ [({ username := u, user_id := i, last_tweet_id := none } : TwitterAccount)]) := by
          simp
        rw [hshape]
        exact hrec.2
    | remove u =>
      have hsub : ((remove_account store u).2).Sublist store := List.filter_sublist store
      have hn : (((remove_account store u).2).map (fun a => strLower a.username)).Nodup :=
        h.sublist (hsub.map _)
      simp only [applyOps, applyOp, addsLog]
      have hrec := ih (remove_account store u).2 hn
      exact ⟨hrec.1, hrec.2.trans ((hsub.append_right _))⟩

/-- C4: after any sequence of add/remove commands starting from the empty
store, no two stored accounts have case-insensitively equal usernames, and
get_accounts lists the surviving accounts as a subsequence of the successful
insertions in insertion order. -/
theorem store_unique_and_insertion_ordered (ops : List Op) :
    ((get_accounts (applyOps ops [])).map (fun a => strLower a.username)).Nodup
    ∧ (get_accounts (applyOps ops [])).Sublist (addsLog ops []) := by
  have h := applyOps_invariant ops [] (by simp)
  simpa [get_accounts] using h

/-- C5: add_account returns false and leaves the store unchanged exactly when
some stored username equals the given one case-insensitively, and otherwise
returns true and appends the new account with a null watermark. -/
theorem add_account_spec (store : List TwitterAccount) (u i : String) :
    ((∃ acc ∈ store, strLower acc.username = strLower u) →
      add_account store u i = (false, store))
    ∧ ((¬ ∃ acc ∈ store, strLower acc.username = strLower u) →
      add_account store u i
        = (true, store ++ [{ username := u, user_id := i, last_tweet_id := none }])) := by
  constructor
  · intro h
    obtain ⟨a, ha, he⟩ := h
    have hany : store.any (fun acc => strLower acc.username == strLower u) = true :=
      List.any_eq_true.mpr ⟨a, ha, by rwa [beq_iff_eq]⟩
    simp [add_account, hany]
  · intro h
    have hany : ¬ store.any (fun acc => strLower acc.username == strLower u) = true := by
      rw [List.any_eq_true]
      rintro ⟨a, ha, he⟩
      exact h ⟨a, ha, by rwa [beq_iff_eq] at he⟩
    simp [add_account, hany]

/-- C5 witness: adding BOB over a store holding Bob fails and leaves the
store unchanged; adding bob to the empty store succeeds and appends it with
a null watermark. -/
theorem add_account_spec_witness :
    add_account [⟨"Bob", "1", none⟩] "BOB" "2" = (false, [⟨"Bob", "1", none⟩])
    ∧ add_account [] "bob" "2"
        = (true, [{ username := "bob", user_id := "2", last_tweet_id := none }]) :=
  ⟨(add_account_spec [⟨"Bob", "1", none⟩] "BOB" "2").1
      ⟨⟨"Bob", "1", none⟩, by decide, by decide⟩,
   (add_account_spec [] "bob" "2").2 (by rintro ⟨a, ha, _⟩; exact (List.not_mem_nil a) ha)⟩

theorem check_account_exn_fst (o : Nat → SendResult) (msg : String)
    (a : TwitterAccount) (s : List TwitterAccount) :
    (check_account o (HttpResult.exn msg) a s).1 = s := rfl

theorem runRound_cons (worlds : String → World) (a : TwitterAccount)
    (accs store : List TwitterAccount) :
    runRound worlds (a :: accs) store
      = runRound worlds accs
          ((check_account (worlds a.username).oracle (worlds a.username).resp a store).1) :=
  rfl

/-- C6: checkAccountE never surfaces an error for any fetch or delivery
outcome (every raise is caught at an inner layer); a transport exception
during fetch yields an empty tweet list; the per-account round for an account
whose fetch raised leaves the store unchanged; and the whole round over a
snapshot of accounts equals the round over the other accounts alone, so they
are unaffected. -/
theorem check_account_isolation
    (worlds : String → World) (u : String) (msg : String)
    (accs store : List TwitterAccount)
    (h : (worlds u).resp = HttpResult.exn msg) :
    (∀ (o : Nat → SendResult) (r : HttpResult) (a : TwitterAccount)
        (s : List TwitterAccount), ∃ out, checkAccountE o r a s = Except.ok out)
    ∧ (get_recent_tweets (worlds u).resp).1 = []
    ∧ (∀ (a : TwitterAccount) (s : List TwitterAccount), a.username = u →
        (check_account (worlds a.username).oracle (worlds a.username).resp a s).1 = s)
    ∧ runRound worlds accs store
        = runRound worlds (accs.filter (fun a => !(a.username == u))) store := by
  have hstep : ∀ (a : TwitterAccount) (s : List TwitterAccount), a.username = u →
      (check_account (worlds a.username).oracle (worlds a.username).resp a s).1 = s := by
    intro a s ha
    rw [ha, h]
    exact check_account_exn_fst _ msg a s
  refine ⟨?_, ?_, hstep, ?_⟩
  · intro o r a s
    by_cases hemp : (get_recent_tweets r).1.isEmpty
    · exact ⟨(s, (get_recent_tweets r).2), by simp [checkAccountE, hemp]⟩
    · exact ⟨((deliverLoop o a.username s (sortTweets (get_recent_tweets r).1)).1,
        (get_recent_tweets r).2
          ++ (deliverLoop o a.username s (sortTweets (get_recent_tweets r).1)).2),
        by simp [checkAccountE, hemp]⟩
  · rw [h]
    rfl
  · induction accs generalizing store with
    | nil => rfl
    | cons a rest ih =>
      by_cases ha : a.username = u
      · have hfil : (a :: rest).filter (fun x => !(x.username == u))
            = rest.filter (fun x => !(x.username == u)) := by
          simp [List.filter_cons, ha]
        rw [hfil, runRound_cons, hstep a store ha]
        exact ih store
      · have hfil : (a :: rest).filter (fun x => !(x.username == u))
            = a :: rest.filter (fun x => !(x.username == u)) := by
          simp [List.filter_cons, ha]
        rw [hfil, runRound_cons, runRound_cons]
        exact ih _

/-- C6 witness: a concrete two-account round in which alice's fetch raises a
transport exception; the round result equals the round over bob alone. -/
theorem check_account_isolation_witness :
    runRound
      (fun v => if v == "alice"
        then ⟨HttpResult.exn "socket closed", fun _ => SendResult.success⟩
        else ⟨HttpResult.response 200 [⟨7, "t7", "c"⟩], fun _ => SendResult.success⟩)
      [⟨"alice", "100", some 2⟩, ⟨"bob", "200", some 4⟩]
      [⟨"alice", "100", some 2⟩, ⟨"bob", "200", some 4⟩]
      = runRound
        (fun v => if v == "alice"
          then ⟨HttpResult.exn "socket closed", fun _ => SendResult.success⟩
          else ⟨HttpResult.response 200 [⟨7, "t7", "c"⟩], fun _ => SendResult.success⟩)
        (([⟨"alice", "100", some 2⟩, ⟨"bob", "200", some 4⟩] :
            List TwitterAccount).filter (fun a => !(a.username == "alice")))
        [⟨"alice", "100", some 2⟩, ⟨"bob", "200", some 4⟩] :=
  (check_account_isolation
    (fun v => if v == "alice"
      then ⟨HttpResult.exn "socket closed", fun _ => SendResult.success⟩
      else ⟨HttpResult.response 200 [⟨7, "t7", "c"⟩], fun _ => SendResult.success⟩)
    "alice" "socket closed"
    [⟨"alice", "100", some 2⟩, ⟨"bob", "200", some 4⟩]
    [⟨"alice", "100", some 2⟩, ⟨"bob", "200", some 4⟩] rfl).2.2.2

/-- C7: a 429 response makes that get_recent_tweets call return an empty list
(not an error), after sleeping 60; in the per-account trace the fetch that
hit the signal is followed immediately by the 60-unit sleep, and everything
of later rounds — in particular every further fetch for this account — comes
after it (plus the inter-round interval sleep). -/
theorem rate_limit_cooldown
    (u : String) (interval : Nat) (w : World) (ws : List World)
    (store : List TwitterAccount) (acc : TwitterAccount) (body : List Tweet)
    (hpres : findAccount store u = some acc)
    (h429 : w.resp = HttpResult.response 429 body) :
    get_recent_tweets w.resp = ([], [Effect.fetchCall, Effect.sleep 60])
    ∧ roundsTrace u interval (w :: ws) store
        = [Effect.fetchCall, Effect.sleep 60, Effect.sleep interval]
          ++ roundsTrace u interval ws store := by
  have hg : get_recent_tweets w.resp = ([], [Effect.fetchCall, Effect.sleep 60]) := by
    rw [h429]
    rfl
  have htr : (check_account w.oracle w.resp acc store).2
      = [Effect.fetchCall, Effect.sleep 60] := by
    rw [check_account_eq, hg]
    rfl
  have hst : (check_account w.oracle w.resp acc store).1 = store := by
    rw [check_account_eq, hg]
    rfl
  refine ⟨hg, ?_⟩
  simp only [roundsTrace, accountRoundTrace, accountRound, get_accounts, hpres,
    htr, hst]
  rfl

/-- C7 witness: a concrete 429 round for alice followed by one more round;
the cooldown sleep appears in the trace before everything that follows. -/
theorem rate_limit_cooldown_witness :
    roundsTrace "alice" 60
      [⟨HttpResult.response 429 [], fun _ => SendResult.success⟩,
       ⟨HttpResult.response 200 [], fun _ => SendResult.success⟩]
      [⟨"alice", "100", some 2⟩]
      = [Effect.fetchCall, Effect.sleep 60, Effect.sleep 60]
        ++ roundsTrace "alice" 60
          [⟨HttpResult.response 200 [], fun _ => SendResult.success⟩]
          [⟨"alice", "100", some 2⟩] :=
  (rate_limit_cooldown "alice" 60
    ⟨HttpResult.response 429 [], fun _ => SendResult.success⟩
    [⟨HttpResult.response 200 [], fun _ => SendResult.success⟩]
    [⟨"alice", "100", some 2⟩] ⟨"alice", "100", some 2⟩ []
    (by decide) rfl).2

/-- C8: a missing config file loads the defaults, and a file whose read or
parse raises likewise loads the defaults — an empty monitored_accounts list
and a 60 second check_interval — instead of crashing startup. -/
theorem load_config_defaults_on_missing_or_error :
    load_config LoadSource.missing = default_config
    ∧ (∀ msg, load_config (LoadSource.parseError msg) = default_config)
    ∧ jsonLookup default_config "monitored_accounts" = some (Json.arr [])
    ∧ jsonLookup default_config "check_interval" = some (Json.num 60) :=
  ⟨rfl, fun _ => rfl, rfl, rfl⟩

/-- C9: save_config never touches the in-memory config, and two flushes with
no intervening mutation write the identical serialized content. -/
theorem save_config_idempotent (c : Json) (storage : Option String) :
    (save_config true c storage).config = c
    ∧ (save_config true c storage).storage = some (serializeJson c)
    ∧ (save_config true (save_config true c storage).config
        (save_config true c storage).storage).storage
      = (save_config true c storage).storage :=
  ⟨rfl, rfl, rfl⟩

theorem findEntry_filter {α : Type} (p q : α → Bool) (l : List α)
    (h : ∀ x, p x = true → q x = true) :
    (l.filter q).find? p = l.find? p := by
  induction l with
  | nil => rfl
  | cons a l ih =>
    by_cases hq : q a = true
    · by_cases hp : p a = true
      · simp [List.filter_cons, hq, List.find?_cons_of_pos, hp]
      · simp [List.filter_cons, hq, List.find?_cons_of_neg, hp, ih]
    · have hp : ¬ p a = true := fun hpa => hq (h a hpa)
      simp [List.filter_cons, hq, List.find?_cons_of_neg, hp, ih]

theorem findEntry_map_keyed (f : String × Json → String × Json)
    (hf : ∀ p, (f p).1 = p.1) (k : String) (l : List (String × Json)) :
    (l.map f).find? (fun p => p.1 == k)
      = (l.find? (fun p => p.1 == k)).map f := by
  induction l with
  | nil => rfl
  | cons a l ih =>
    by_cases hp : (a.1 == k) = true
    · have hfa : ((f a).1 == k) = true := by rw [hf]; exact hp
      simp [List.find?_cons_of_pos, hp, hfa]
    · have hfa : ¬ ((f a).1 == k) = true := by rw [hf]; exact hp
      simp [List.find?_cons_of_neg, hp, hfa, ih]


theorem dictMerge_lookup (a b : List (String × Json)) (k : String) :
    jsonLookup (dictMerge a b) k
      = match jsonLookup b k with
        | some v => some v
        | none => jsonLookup a k := by
  have hf : ∀ p : String × Json,
      ((fun p : String × Json =>
        match jsonLookup b p.1 with
        | some v => (p.1, v)
        | none => p) p).1 = p.1 := by
    intro p
    cases h : jsonLookup b p.1 <;> simp [h]
  have key : (dictMerge a b).find? (fun p => p.1 == k)
      = ((a.find? (fun p => p.1 == k)).map (fun p : String × Json =>
            match jsonLookup b p.1 with
            | some v => (p.1, v)
            | none => p)).or
          ((b.filter (fun p => (jsonLookup a p.1).isNone)).find?
            (fun p => p.1 == k)) := by
    simp only [dictMerge, List.find?_append, findEntry_map_keyed _ hf k a]
  cases ha : a.find? (fun p => p.1 == k) with
  | some pa =>
    have hpk : pa.1 = k := by
      have h2 := List.find?_some ha
      rwa [beq_iff_eq] at h2
    have hlhs : jsonLookup (dictMerge a b) k
        = some ((match jsonLookup b pa.1 with
                 | some v => (pa.1, v)
                 | none => pa) : String × Json).2 := by
      show ((dictMerge a b).find? (fun p => p.1 == k)).map (fun p => p.2) = _
      rw [key, ha]
      rfl
    rw [hlhs, hpk]
    cases hjb : jsonLookup b k with
    | some v => rfl
    | none =>
      show some pa.2 = jsonLookup a k
      show some pa.2 = (a.find? (fun p => p.1 == k)).map (fun p => p.2)
      rw [ha]
      rfl
  | none =>
    have hja : jsonLookup a k = none := by
      show (a.find? (fun p => p.1 == k)).map (fun p => p.2) = none
      rw [ha]
      rfl
    have hfil : (b.filter (fun p => (jsonLookup a p.1).isNone)).find?
        (fun p => p.1 == k) = b.find? (fun p => p.1 == k) := by
      refine findEntry_filter _ _ b ?_
      intro x hx
      have hxk : x.1 = k := by rwa [beq_iff_eq] at hx
      rw [hxk, hja]
      rfl
    have hlhs : jsonLookup (dictMerge a b) k = jsonLookup b k := by
      show ((dictMerge a b).find? (fun p => p.1 == k)).map (fun p => p.2) = _
      rw [key, ha, hfil]
      rfl
    rw [hlhs]
    cases hjb : jsonLookup b k with
    | some v => rfl
    | none => exact hja.symm

/-- C10: loading a parsed config dict merges it key-wise over the defaults:
every key present in the file keeps the file's value, and only absent keys
take their default; in particular a file holding only check_interval yields
that interval together with an empty monitored_accounts list. -/
theorem load_config_merges_over_defaults (kvs : List (String × Json)) (k : String) :
    jsonLookup (load_config (LoadSource.parsed (Json.obj kvs))) k
      = (match jsonLookup kvs k with
         | some v => some v
         | none => jsonLookup default_config k)
    ∧ load_config (LoadSource.parsed (Json.obj [("check_interval", Json.num 30)]))
        = [("monitored_accounts", Json.arr []), ("check_interval", Json.num 30)] := by
  constructor
  · simp only [load_config]
    exact dictMerge_lookup default_config kvs k
  · rfl
